import Mathlib

/-!
# Verification of the vocabulary-practice bot core (`vocab_bot.py`)

Shallow embedding of the pure core of the program: strings are `List Char`,
the word store is a `List VocabEntry`, the upstream generation call is a
parameter of type `Except error rawText`, and handler side effects (replies
sent, store loads/saves) are recorded explicitly in the returned value.

Modelling caveats, stated once: Python's `str.strip`, `str.lower`,
`str.isalpha` and the regex class `\d` are Unicode-aware; they are modelled
here on the ASCII range (the six ASCII whitespace characters, the 26 ASCII
letter pairs, the ASCII digits), which is the range the program's own data
uses.
-/

/-- The six whitespace characters stripped by Python's `str.strip()`
(modelled on the ASCII range). -/
def pyIsSpace (c : Char) : Bool :=
  c = ' ' || c = '\t' || c = '\n' || c = '\r' || c = '\x0b' || c = '\x0c'

/-- Python `str.strip()`: drop leading and trailing whitespace. -/
def pyStrip (s : List Char) : List Char :=
  ((s.dropWhile pyIsSpace).reverse.dropWhile pyIsSpace).reverse

/-- Python `str.lower()`, modelled on the ASCII letters. -/
def pyToLower (c : Char) : Char :=
  match c with
  | 'A' => 'a' | 'B' => 'b' | 'C' => 'c' | 'D' => 'd' | 'E' => 'e'
  | 'F' => 'f' | 'G' => 'g' | 'H' => 'h' | 'I' => 'i' | 'J' => 'j'
  | 'K' => 'k' | 'L' => 'l' | 'M' => 'm' | 'N' => 'n' | 'O' => 'o'
  | 'P' => 'p' | 'Q' => 'q' | 'R' => 'r' | 'S' => 's' | 'T' => 't'
  | 'U' => 'u' | 'V' => 'v' | 'W' => 'w' | 'X' => 'x' | 'Y' => 'y'
  | 'Z' => 'z'
  | _ => c

/-- Python `str.isalpha()` on a single character (ASCII range). -/
def pyIsAlphaChar (c : Char) : Bool :=
  ('a' ≤ c && c ≤ 'z') || ('A' ≤ c && c ≤ 'Z')

/-- Python `str.isalpha()`: nonempty and every character alphabetic. -/
def pyIsAlphaStr (s : List Char) : Bool :=
  !s.isEmpty && s.all pyIsAlphaChar

/-- One stored vocabulary record, as kept in `english_words.json`:
`{'word': ..., 'added_date': ..., 'practice_count': ...}` (from `add_word`,
line 200). -/
structure VocabEntry where
  word : List Char
  added_date : List Char
  practice_count : Nat
deriving DecidableEq

/-- Does the text start with a block-start marker, i.e. does the regex
`\[\d+\]\.` match here?  Used for the lookahead in
`re.split(r'\n(?=\[\d+\]\.)', raw)` (line 117; `\d` modelled as ASCII
digits). -/
def matchBlockMarker : List Char → Bool
  | '[' :: rest =>
    !(rest.takeWhile Char.isDigit).isEmpty &&
      (match rest.dropWhile Char.isDigit with
       | ']' :: '.' :: _ => true
       | _ => false)
  | _ => false

/-- `re.split(r'\n(?=\[\d+\]\.)', raw)`: cut at every newline that is
immediately followed by a block-start marker; the newline is consumed, the
marker is kept (lookahead).  `acc` holds the current segment reversed. -/
def reSplitAux : List Char → List Char → List (List Char)
  | acc, [] => [acc.reverse]
  | acc, c :: rest =>
    if c = '\n' && matchBlockMarker rest then
      acc.reverse :: reSplitAux [] rest
    else
      reSplitAux (c :: acc) rest

/-- The parsing step of `bulk_generate` (lines 114-118):
`raw = response.text.strip()`, split at block starts, then
`[b.strip() for b in blocks if b.strip()]`. -/
def parseBlocks (raw : List Char) : List (List Char) :=
  ((reSplitAux [] (pyStrip raw)).map pyStrip).filter (fun b => !b.isEmpty)

/-- The placeholder block for a missing word
(`f"⚠️ Missing result for: {word_list[len(results)]}"`, line 122). -/
def missingMsg (w : List Char) : List Char :=
  "⚠️ Missing result for: ".data ++ w

/-- The padding loop of `bulk_generate` (lines 121-122): while fewer results
than words, append a placeholder naming the word at the next index. -/
def padResults (word_list : List (List Char)) (results : List (List Char)) :
    List (List Char) :=
  if h : results.length < word_list.length then
    padResults word_list (results ++ [missingMsg (word_list.get ⟨results.length, h⟩)])
  else results
termination_by word_list.length - results.length
decreasing_by simp [List.length_append]; omega

/-- The placeholder block for an upstream failure
(`f"⚠️ API error: {err[:100]}"`, line 129). -/
def apiError (err : List Char) : List Char :=
  "⚠️ API error: ".data ++ err.take 100

/-- `bulk_generate` (lines 77-129), instrumented with the number of
generation-service calls it makes.  The outcome of the one upstream call is
a parameter: `Except.ok raw` is a reply with text `raw`, `Except.error err`
is a raised exception with description `err`. -/
def bulk_generateFx (word_list : List (List Char))
    (outcome : Except (List Char) (List Char)) : List (List Char) × Nat :=
  if word_list.isEmpty then ([], 0)
  else
    match outcome with
    | Except.ok raw => (padResults word_list (parseBlocks raw), 1)
    | Except.error err => (List.replicate word_list.length (apiError err), 1)

/-- The list returned by `bulk_generate`. -/
def bulk_generate (word_list : List (List Char))
    (outcome : Except (List Char) (List Char)) : List (List Char) :=
  (bulk_generateFx word_list outcome).1

/-- Closed form of the padding loop: it appends one placeholder per word left
uncovered, and leaves an overlong result list untouched. -/
theorem padResults_eq (wl : List (List Char)) :
    ∀ (n : Nat) (rs : List (List Char)), wl.length - rs.length = n →
      padResults wl rs = rs ++ (wl.drop rs.length).map missingMsg := by
  intro n
  induction n with
  | zero =>
    intro rs h
    have hle : wl.length ≤ rs.length := by omega
    rw [padResults, dif_neg (by omega), List.drop_eq_nil_of_le hle, List.map_nil,
      List.append_nil]
  | succ n ih =>
    intro rs h
    have hlt : rs.length < wl.length := by omega
    rw [padResults, dif_pos hlt, ih _ (by simp; omega)]
    have hdrop : wl.drop rs.length = wl[rs.length] :: wl.drop (rs.length + 1) :=
      List.drop_eq_getElem_cons hlt
    rw [hdrop]
    simp only [List.length_append, List.length_cons, List.length_nil, Nat.zero_add,
      List.map_cons, List.append_assoc, List.singleton_append, List.get_eq_getElem]

/-- Claim C1 (amended): for every non-empty word list, the success path of
bulk_generate returns the parsed blocks padded with one placeholder per word
left uncovered, so its length is the maximum of the word count and the parsed
block count — exactly the word count when the raw text parses to at most that
many blocks, and more when it parses to more. -/
theorem parse_pads_to_length_max (wl : List (List Char)) (raw : List Char)
    (h : wl ≠ []) :
    bulk_generate wl (Except.ok raw) =
      parseBlocks raw ++ (wl.drop (parseBlocks raw).length).map missingMsg ∧
    (bulk_generate wl (Except.ok raw)).length =
      max wl.length (parseBlocks raw).length := by
  have hne : wl.isEmpty = false := by simpa [List.isEmpty_iff] using h
  have e : bulk_generate wl (Except.ok raw) =
      parseBlocks raw ++ (wl.drop (parseBlocks raw).length).map missingMsg := by
    unfold bulk_generate bulk_generateFx
    rw [hne]
    exact padResults_eq wl _ _ rfl
  refine ⟨e, ?_⟩
  rw [e]
  simp only [List.length_append, List.length_map, List.length_drop]
  omega

/-- Claim C1, as stated, fails: a one-word list with a raw text containing two
blocks yields two results, not one — the code pads but never truncates. -/
theorem parse_overlong_counterexample :
    (bulk_generate ["cat".data] (Except.ok "[1]. a\n[2]. b".data)).length = 2 ∧
    (["cat".data] : List (List Char)).length = 1 := by
  constructor
  · show (padResults ["cat".data] (parseBlocks "[1]. a\n[2]. b".data)).length = 2
    rw [padResults_eq _ _ _ rfl]
    decide
  · rfl

/-- Witness for claim C1 at a concrete input. -/
theorem parse_pads_witness :
    bulk_generate [['c']] (Except.ok ['x']) =
      parseBlocks ['x'] ++
        (([['c']] : List (List Char)).drop (parseBlocks ['x']).length).map missingMsg ∧
    (bulk_generate [['c']] (Except.ok ['x'])).length =
      max ([['c']] : List (List Char)).length (parseBlocks ['x']).length :=
  parse_pads_to_length_max [['c']] ['x'] (by decide)

/-- Claim C3: on any upstream exception, bulk_generate returns one identical
placeholder per word, carrying the error text truncated to 100 characters, and
raises nothing; the empty word list yields the empty result with no
generation-service call made. -/
theorem bulk_generate_error_never_raises (wl : List (List Char)) (err : List Char)
    (o : Except (List Char) (List Char)) :
    (wl ≠ [] → bulk_generateFx wl (Except.error err) =
      (List.replicate wl.length ("⚠️ API error: ".data ++ err.take 100), 1)) ∧
    bulk_generateFx [] o = ([], 0) := by
  constructor
  · intro h
    have hne : wl.isEmpty = false := by simpa [List.isEmpty_iff] using h
    simp [bulk_generateFx, hne, apiError]
  · rfl

/-- Witness for claim C3 at a concrete input. -/
theorem bulk_generate_error_witness :
    bulk_generateFx [['a']] (Except.error ['e']) =
      (List.replicate ([['a']] : List (List Char)).length
        ("⚠️ API error: ".data ++ (['e'] : List Char).take 100), 1) ∧
    bulk_generateFx [] (Except.ok ['x']) = ([], 0) :=
  ⟨(bulk_generate_error_never_raises [['a']] ['e'] (Except.ok ['x'])).1 (by decide),
   (bulk_generate_error_never_raises [['a']] ['e'] (Except.ok ['x'])).2⟩

/-- Telegram max chars per message (line 29). -/
def TELEGRAM_MAX_CHARS : Nat := 4000

/-- The visual separator appended after every block in `chunk_messages`
(line 136). -/
def separator : List Char :=
  '\n' :: (List.replicate 25 '━' ++ "\n\n".data)

/-- The loop of `chunk_messages` (lines 138-149): greedy packing of blocks
into chunks of at most `max_chars` characters; `current` is the running
buffer. -/
def chunkAux (max_chars : Nat) : List Char → List (List Char) → List (List Char)
  | current, [] =>
    if (pyStrip current).isEmpty then [] else [pyStrip current]
  | current, entry :: rest =>
    if current.length + (entry ++ separator).length > max_chars then
      (if current.isEmpty then [] else [pyStrip current]) ++
        chunkAux max_chars (entry ++ separator) rest
    else
      chunkAux max_chars (current ++ (entry ++ separator)) rest

/-- `chunk_messages` (lines 132-150). -/
def chunk_messages (entries : List (List Char)) (max_chars : Nat) :
    List (List Char) :=
  chunkAux max_chars [] entries

/-- Concatenation of a list of lists. -/
def joinAll {α : Type} : List (List α) → List α
  | [] => []
  | x :: t => x ++ joinAll t

/-- The buffer built from a run of blocks: each block suffixed with the
separator, then concatenated. -/
def joinBlocks : List (List Char) → List Char
  | [] => []
  | e :: t => (e ++ separator) ++ joinBlocks t

theorem joinBlocks_append (g1 g2 : List (List Char)) :
    joinBlocks (g1 ++ g2) = joinBlocks g1 ++ joinBlocks g2 := by
  induction g1 with
  | nil => simp [joinBlocks]
  | cons e t ih => simp [joinBlocks, ih, List.append_assoc]

theorem mem_dropWhile_of_neg (p : Char → Bool) (l : List Char) (c : Char)
    (hc : c ∈ l) (hp : p c = false) : c ∈ l.dropWhile p := by
  induction l with
  | nil => cases hc
  | cons x t ih =>
    rw [List.dropWhile_cons]
    by_cases hx : p x = true
    · rw [if_pos hx]
      rcases List.mem_cons.mp hc with h | h
      · rw [h] at hp; rw [hp] at hx; cases hx
      · exact ih h
    · rw [if_neg hx]
      exact hc

theorem pyStrip_ne_nil_of_mem (s : List Char) (c : Char) (hc : c ∈ s)
    (hp : pyIsSpace c = false) : pyStrip s ≠ [] := by
  have h1 : c ∈ s.dropWhile pyIsSpace := mem_dropWhile_of_neg _ _ _ hc hp
  have h2 : c ∈ (s.dropWhile pyIsSpace).reverse := List.mem_reverse.mpr h1
  have h3 : c ∈ (s.dropWhile pyIsSpace).reverse.dropWhile pyIsSpace :=
    mem_dropWhile_of_neg _ _ _ h2 hp
  have h4 : c ∈ pyStrip s := List.mem_reverse.mpr h3
  exact List.ne_nil_of_mem h4

theorem pyStrip_length_le (s : List Char) : (pyStrip s).length ≤ s.length := by
  have d1 : ∀ (l : List Char), (l.dropWhile pyIsSpace).length ≤ l.length := by
    intro l
    induction l with
    | nil => simp
    | cons x t ih =>
      rw [List.dropWhile_cons]
      by_cases hx : pyIsSpace x = true
      · rw [if_pos hx]; simp; omega
      · rw [if_neg hx]
  calc (pyStrip s).length
      = ((s.dropWhile pyIsSpace).reverse.dropWhile pyIsSpace).length := by
        simp [pyStrip]
    _ ≤ (s.dropWhile pyIsSpace).reverse.length := d1 _
    _ = (s.dropWhile pyIsSpace).length := by simp
    _ ≤ s.length := d1 _

theorem sep_mem_joinBlocks (g : List (List Char)) (hg : g ≠ []) :
    '━' ∈ joinBlocks g := by
  cases g with
  | nil => cases hg rfl
  | cons e t =>
    have hsep : '━' ∈ separator := by decide
    show '━' ∈ (e ++ separator) ++ joinBlocks t
    exact List.mem_append.mpr (Or.inl (List.mem_append.mpr (Or.inr hsep)))

theorem pyStrip_joinBlocks_ne_nil (g : List (List Char)) (hg : g ≠ []) :
    pyStrip (joinBlocks g) ≠ [] :=
  pyStrip_ne_nil_of_mem _ '━' (sep_mem_joinBlocks g hg) (by decide)

theorem joinBlocks_ne_nil (g : List (List Char)) (hg : g ≠ []) :
    joinBlocks g ≠ [] := by
  intro h
  exact pyStrip_joinBlocks_ne_nil g hg (by rw [h]; rfl)

/-- Invariant of the chunking loop: the produced chunks are exactly the
consecutive runs of blocks (the buffer's pending run `g` first), each run
joined with separators and stripped; every run is nonempty, and every chunk
fits the budget unless its run is a single block. -/
theorem chunkAux_spec (max : Nat) (entries : List (List Char)) :
    ∀ (g : List (List Char)),
      ((joinBlocks g).length ≤ max ∨ g.length = 1) →
      ∃ gs : List (List (List Char)),
        joinAll gs = g ++ entries ∧
        chunkAux max (joinBlocks g) entries =
          gs.map (fun h => pyStrip (joinBlocks h)) ∧
        ∀ h ∈ gs, h ≠ [] ∧
          ((pyStrip (joinBlocks h)).length ≤ max ∨ h.length = 1) := by
  induction entries with
  | nil =>
    intro g hg
    cases g with
    | nil =>
      refine ⟨[], by simp [joinAll], ?_, by simp⟩
      rfl
    | cons x t =>
      have hne : pyStrip (joinBlocks (x :: t)) ≠ [] :=
        pyStrip_joinBlocks_ne_nil _ (List.cons_ne_nil x t)
      refine ⟨[x :: t], by simp [joinAll], ?_, ?_⟩
      · show (if (pyStrip (joinBlocks (x :: t))).isEmpty then []
            else [pyStrip (joinBlocks (x :: t))]) =
          [pyStrip (joinBlocks (x :: t))]
        rw [if_neg (by simpa [List.isEmpty_iff] using hne)]
      · intro h hh
        rw [List.mem_singleton] at hh
        subst hh
        refine ⟨List.cons_ne_nil x t, ?_⟩
        rcases hg with hb | hl
        · exact Or.inl (le_trans (pyStrip_length_le _) hb)
        · exact Or.inr hl
  | cons e rest ih =>
    intro g hg
    have heq : chunkAux max (joinBlocks g) (e :: rest) =
        if (joinBlocks g).length + (e ++ separator).length > max then
          (if (joinBlocks g).isEmpty then [] else [pyStrip (joinBlocks g)]) ++
            chunkAux max (e ++ separator) rest
        else chunkAux max (joinBlocks g ++ (e ++ separator)) rest := rfl
    by_cases hov : (joinBlocks g).length + (e ++ separator).length > max
    · obtain ⟨gs, h1, h2, h3⟩ := ih [e] (Or.inr rfl)
      have h2' : chunkAux max (e ++ separator) rest =
          gs.map (fun h => pyStrip (joinBlocks h)) := by
        have hs : joinBlocks [e] = e ++ separator := by simp [joinBlocks]
        rw [← hs]; exact h2
      cases g with
      | nil =>
        refine ⟨gs, by simpa using h1, ?_, h3⟩
        rw [heq, if_pos hov]
        have hemp : (joinBlocks ([] : List (List Char))).isEmpty = true := rfl
        rw [if_pos hemp, List.nil_append, h2']
      | cons x t =>
        refine ⟨(x :: t) :: gs, ?_, ?_, ?_⟩
        · show (x :: t) ++ joinAll gs = (x :: t) ++ (e :: rest)
          rw [h1]
          rfl
        · rw [heq, if_pos hov]
          have hxe : (joinBlocks (x :: t)).isEmpty = false := by
            simpa [List.isEmpty_iff] using joinBlocks_ne_nil (x :: t) (List.cons_ne_nil x t)
          rw [if_neg (by simp [hxe]), h2']
          rfl
        · intro h hh
          rcases List.mem_cons.mp hh with hh1 | hmem
          · subst hh1
            refine ⟨List.cons_ne_nil x t, ?_⟩
            rcases hg with hb | hl
            · exact Or.inl (le_trans (pyStrip_length_le _) hb)
            · exact Or.inr hl
          · exact h3 h hmem
    · have hfit : (joinBlocks (g ++ [e])).length ≤ max := by
        rw [joinBlocks_append]
        have hs : joinBlocks [e] = e ++ separator := by simp [joinBlocks]
        rw [hs, List.length_append]
        omega
      obtain ⟨gs, h1, h2, h3⟩ := ih (g ++ [e]) (Or.inl hfit)
      refine ⟨gs, ?_, ?_, h3⟩
      · rw [h1, List.append_assoc]
        rfl
      · rw [heq, if_neg hov]
        have hj : joinBlocks g ++ (e ++ separator) = joinBlocks (g ++ [e]) := by
          rw [joinBlocks_append]
          simp [joinBlocks]
        rw [hj, h2]

/-- Claim C5: for every block list and every character budget, the chunks are
whole consecutive runs of blocks — no block is ever split across two chunks —
and every chunk fits the budget except a chunk made of one single oversized
block, which is emitted whole. -/
theorem chunk_messages_no_split (entries : List (List Char)) (max : Nat) :
    ∃ gs : List (List (List Char)),
      joinAll gs = entries ∧
      chunk_messages entries max = gs.map (fun h => pyStrip (joinBlocks h)) ∧
      ∀ h ∈ gs, (pyStrip (joinBlocks h)).length ≤ max ∨ ∃ e, h = [e] := by
  obtain ⟨gs, h1, h2, h3⟩ :=
    chunkAux_spec max entries [] (Or.inl (by simp [joinBlocks]))
  refine ⟨gs, by simpa using h1, h2, ?_⟩
  intro h hh
  rcases (h3 h hh).2 with hb | hl
  · exact Or.inl hb
  · exact Or.inr (List.length_eq_one.mp hl)

/-- Claim C6: for every list of nonempty whitespace-trimmed blocks,
chunk_messages partitions the blocks into consecutive nonempty runs, in
order, and returns each run joined with the inserted separators (and
stripped); concatenating the runs therefore reproduces the original block
sequence in its original order. -/
theorem chunk_messages_reassemble (entries : List (List Char)) (max : Nat)
    (H : ∀ e ∈ entries, pyStrip e = e ∧ e ≠ []) :
    ∃ gs : List (List (List Char)),
      joinAll gs = entries ∧
      chunk_messages entries max = gs.map (fun h => pyStrip (joinBlocks h)) ∧
      ∀ h ∈ gs, h ≠ [] := by
  obtain ⟨gs, h1, h2, h3⟩ :=
    chunkAux_spec max entries [] (Or.inl (by simp [joinBlocks]))
  exact ⟨gs, by simpa using h1, h2, fun h hh => (h3 h hh).1⟩

/-- Witness for claim C6 at a concrete input. -/
theorem chunk_messages_reassemble_witness :
    ∃ gs : List (List (List Char)),
      joinAll gs = ["ab".data, "cd".data] ∧
      chunk_messages ["ab".data, "cd".data] 10 =
        gs.map (fun h => pyStrip (joinBlocks h)) ∧
      ∀ h ∈ gs, h ≠ [] :=
  chunk_messages_reassemble ["ab".data, "cd".data] 10 (by decide)

/-- What the stats handler computes for a non-empty store (lines 292-296). -/
structure StatsResult where
  total_words : Nat
  total_practice : Nat
  avg : ℚ
  most : VocabEntry
  least : VocabEntry
deriving DecidableEq

/-- Python max with key practice_count over the non-empty list x :: t: keep
the current holder unless the next item is strictly larger, so ties go to the
first occurrence. -/
def pyMaxBy (x : VocabEntry) (t : List VocabEntry) : VocabEntry :=
  t.foldl (fun acc w => if acc.practice_count < w.practice_count then w else acc) x

/-- Python min with key practice_count over x :: t: ties go to the first
occurrence. -/
def pyMinBy (x : VocabEntry) (t : List VocabEntry) : VocabEntry :=
  t.foldl (fun acc w => if w.practice_count < acc.practice_count then w else acc) x

/-- The stats handler (lines 285-309): None for an empty store (it only
replies a notice), otherwise count, practice sum, mean (the code displays it
with one decimal), and the Python max/min entries by practice_count. -/
def stats : List VocabEntry → Option StatsResult
  | [] => none
  | x :: t =>
    let tw := (x :: t).length
    let tp := ((x :: t).map VocabEntry.practice_count).sum
    some ⟨tw, tp, if 0 < tw then (tp : ℚ) / (tw : ℚ) else 0, pyMaxBy x t, pyMinBy x t⟩

theorem pyMaxBy_cons (x y : VocabEntry) (t : List VocabEntry) :
    pyMaxBy x (y :: t) =
      pyMaxBy (if x.practice_count < y.practice_count then y else x) t := rfl

theorem pyMinBy_cons (x y : VocabEntry) (t : List VocabEntry) :
    pyMinBy x (y :: t) =
      pyMinBy (if y.practice_count < x.practice_count then y else x) t := rfl

theorem pyMaxBy_mem (t : List VocabEntry) : ∀ x, pyMaxBy x t ∈ x :: t := by
  induction t with
  | nil => intro x; exact List.mem_singleton.mpr rfl
  | cons y t ih =>
    intro x
    rw [pyMaxBy_cons]
    by_cases h : x.practice_count < y.practice_count
    · rw [if_pos h]
      exact List.mem_cons.mpr (Or.inr (ih y))
    · rw [if_neg h]
      rcases List.mem_cons.mp (ih x) with h1 | h1
      · rw [h1]
        exact List.mem_cons_self x (y :: t)
      · exact List.mem_cons.mpr (Or.inr (List.mem_cons.mpr (Or.inr h1)))

theorem pyMinBy_mem (t : List VocabEntry) : ∀ x, pyMinBy x t ∈ x :: t := by
  induction t with
  | nil => intro x; exact List.mem_singleton.mpr rfl
  | cons y t ih =>
    intro x
    rw [pyMinBy_cons]
    by_cases h : y.practice_count < x.practice_count
    · rw [if_pos h]
      exact List.mem_cons.mpr (Or.inr (ih y))
    · rw [if_neg h]
      rcases List.mem_cons.mp (ih x) with h1 | h1
      · rw [h1]
        exact List.mem_cons_self x (y :: t)
      · exact List.mem_cons.mpr (Or.inr (List.mem_cons.mpr (Or.inr h1)))

theorem pyMaxBy_ge (t : List VocabEntry) :
    ∀ x, ∀ w ∈ x :: t, w.practice_count ≤ (pyMaxBy x t).practice_count := by
  induction t with
  | nil =>
    intro x w hw
    rw [List.mem_singleton.mp hw]
    exact Nat.le_refl _
  | cons y t ih =>
    intro x w hw
    rw [pyMaxBy_cons]
    by_cases h : x.practice_count < y.practice_count
    · rw [if_pos h]
      rcases List.mem_cons.mp hw with h1 | h1
      · subst h1
        exact Nat.le_trans (Nat.le_of_lt h) (ih y y (List.mem_cons_self y t))
      · exact ih y w h1
    · rw [if_neg h]
      rcases List.mem_cons.mp hw with h1 | h1
      · subst h1
        exact ih w w (List.mem_cons_self w t)
      · rcases List.mem_cons.mp h1 with h2 | h2
        · subst h2
          exact Nat.le_trans (Nat.le_of_not_lt h) (ih x x (List.mem_cons_self x t))
        · exact ih x w (List.mem_cons.mpr (Or.inr h2))

theorem pyMinBy_le (t : List VocabEntry) :
    ∀ x, ∀ w ∈ x :: t, (pyMinBy x t).practice_count ≤ w.practice_count := by
  induction t with
  | nil =>
    intro x w hw
    rw [List.mem_singleton.mp hw]
    exact Nat.le_refl _
  | cons y t ih =>
    intro x w hw
    rw [pyMinBy_cons]
    by_cases h : y.practice_count < x.practice_count
    · rw [if_pos h]
      rcases List.mem_cons.mp hw with h1 | h1
      · subst h1
        exact Nat.le_trans (ih y y (List.mem_cons_self y t)) (Nat.le_of_lt h)
      · exact ih y w h1
    · rw [if_neg h]
      rcases List.mem_cons.mp hw with h1 | h1
      · subst h1
        exact ih w w (List.mem_cons_self w t)
      · rcases List.mem_cons.mp h1 with h2 | h2
        · subst h2
          exact Nat.le_trans (ih x x (List.mem_cons_self x t)) (Nat.le_of_not_lt h)
        · exact ih x w (List.mem_cons.mpr (Or.inr h2))

/-- Ties resolve to the first occurrence: the max entry is the first list
element whose practice_count reaches the maximum. -/
theorem pyMaxBy_first (t : List VocabEntry) :
    ∀ x, (x :: t).find?
        (fun w => decide ((pyMaxBy x t).practice_count ≤ w.practice_count)) =
      some (pyMaxBy x t) := by
  induction t with
  | nil =>
    intro x
    exact List.find?_cons_of_pos _ (by simp [pyMaxBy])
  | cons y t ih =>
    intro x
    by_cases h : x.practice_count < y.practice_count
    · have hm : pyMaxBy x (y :: t) = pyMaxBy y t := by rw [pyMaxBy_cons, if_pos h]
      have hy : y.practice_count ≤ (pyMaxBy y t).practice_count :=
        pyMaxBy_ge t y y (List.mem_cons_self y t)
      rw [hm, List.find?_cons_of_neg _
        (by intro hc; simp only [decide_eq_true_eq] at hc; omega)]
      exact ih y
    · have hm : pyMaxBy x (y :: t) = pyMaxBy x t := by rw [pyMaxBy_cons, if_neg h]
      have hxm : x.practice_count ≤ (pyMaxBy x t).practice_count :=
        pyMaxBy_ge t x x (List.mem_cons_self x t)
      rw [hm]
      by_cases hpx : (pyMaxBy x t).practice_count ≤ x.practice_count
      · rw [List.find?_cons_of_pos _ (by simpa using hpx)]
        exact (List.find?_cons_of_pos _ (by simpa using hpx)).symm.trans (ih x)
      · have hyx : y.practice_count ≤ x.practice_count := Nat.le_of_not_lt h
        rw [List.find?_cons_of_neg _ (by simpa using hpx),
          List.find?_cons_of_neg _
            (by intro hc; simp only [decide_eq_true_eq] at hc; omega)]
        exact (List.find?_cons_of_neg _ (by simpa using hpx)).symm.trans (ih x)

/-- Ties resolve to the first occurrence: the min entry is the first list
element whose practice_count reaches the minimum. -/
theorem pyMinBy_first (t : List VocabEntry) :
    ∀ x, (x :: t).find?
        (fun w => decide (w.practice_count ≤ (pyMinBy x t).practice_count)) =
      some (pyMinBy x t) := by
  induction t with
  | nil =>
    intro x
    exact List.find?_cons_of_pos _ (by simp [pyMinBy])
  | cons y t ih =>
    intro x
    by_cases h : y.practice_count < x.practice_count
    · have hm : pyMinBy x (y :: t) = pyMinBy y t := by rw [pyMinBy_cons, if_pos h]
      have hy : (pyMinBy y t).practice_count ≤ y.practice_count :=
        pyMinBy_le t y y (List.mem_cons_self y t)
      rw [hm, List.find?_cons_of_neg _
        (by intro hc; simp only [decide_eq_true_eq] at hc; omega)]
      exact ih y
    · have hm : pyMinBy x (y :: t) = pyMinBy x t := by rw [pyMinBy_cons, if_neg h]
      have hxm : (pyMinBy x t).practice_count ≤ x.practice_count :=
        pyMinBy_le t x x (List.mem_cons_self x t)
      rw [hm]
      by_cases hpx : x.practice_count ≤ (pyMinBy x t).practice_count
      · rw [List.find?_cons_of_pos _ (by simpa using hpx)]
        exact (List.find?_cons_of_pos _ (by simpa using hpx)).symm.trans (ih x)
      · have hyx : x.practice_count ≤ y.practice_count := Nat.le_of_not_lt h
        rw [List.find?_cons_of_neg _ (by simpa using hpx),
          List.find?_cons_of_neg _
            (by intro hc; simp only [decide_eq_true_eq] at hc; omega)]
        exact (List.find?_cons_of_neg _ (by simpa using hpx)).symm.trans (ih x)

/-- Claim C2 (amended): for every non-empty store, stats reports the word
count, the practice_count sum, their exact mean (4/3 for counts 0,3,1 —
rendered as 1.3 by the one-decimal format, not 1.33), and the max/min
entries with ties resolved to the first occurrence in stored order; for
counts 0,3,1 the totals are 3 words and 4 practices, most is the count-3
entry and least the count-0 entry. -/
theorem stats_fields_spec (x : VocabEntry) (t : List VocabEntry)
    (a b c : VocabEntry) (ha : a.practice_count = 0) (hb : b.practice_count = 3)
    (hc : c.practice_count = 1) :
    (∃ r : StatsResult, stats (x :: t) = some r ∧
      r.total_words = (x :: t).length ∧
      r.total_practice = ((x :: t).map VocabEntry.practice_count).sum ∧
      r.avg = (r.total_practice : ℚ) / (r.total_words : ℚ) ∧
      r.most ∈ x :: t ∧
      (∀ w ∈ x :: t, w.practice_count ≤ r.most.practice_count) ∧
      (x :: t).find? (fun w => decide (r.most.practice_count ≤ w.practice_count)) =
        some r.most ∧
      r.least ∈ x :: t ∧
      (∀ w ∈ x :: t, r.least.practice_count ≤ w.practice_count) ∧
      (x :: t).find? (fun w => decide (w.practice_count ≤ r.least.practice_count)) =
        some r.least) ∧
    (∃ ri : StatsResult, stats [a, b, c] = some ri ∧
      ri.total_words = 3 ∧ ri.total_practice = 4 ∧ ri.avg = 4 / 3 ∧
      ri.most = b ∧ ri.least = a) := by
  constructor
  · refine ⟨_, rfl, rfl, rfl, ?_, ?_, ?_, ?_, ?_, ?_, ?_⟩
    · exact if_pos (by simp)
    · exact pyMaxBy_mem t x
    · exact pyMaxBy_ge t x
    · exact pyMaxBy_first t x
    · exact pyMinBy_mem t x
    · exact pyMinBy_le t x
    · exact pyMinBy_first t x
  · refine ⟨_, rfl, rfl, ?_, ?_, ?_, ?_⟩
    · simp [ha, hb, hc]
    · simp [ha, hb, hc]
    · simp [pyMaxBy, ha, hb, hc]
    · simp [pyMinBy, ha, hb, hc]

/-- Claim C2, as stated, fails on the average: for practice_counts 0,3,1 the
computed average is 4/3 = 1.333..., not 1.33 (and the code renders it as
1.3, one decimal place). -/
theorem stats_avg_counterexample :
    (stats [⟨['p'], [], 0⟩, ⟨['q'], [], 3⟩, ⟨['r'], [], 1⟩]).map StatsResult.avg =
      some ((4 : ℚ) / 3) ∧
    (4 : ℚ) / 3 ≠ 133 / 100 := by
  constructor
  · simp [stats, pyMaxBy, pyMinBy]
  · norm_num

/-- Witness for claim C2 at a concrete input. -/
theorem stats_fields_witness :
    (∃ r : StatsResult,
      stats [(⟨['x'], [], 2⟩ : VocabEntry)] = some r ∧
      r.total_words = [(⟨['x'], [], 2⟩ : VocabEntry)].length ∧
      r.total_practice =
        ([(⟨['x'], [], 2⟩ : VocabEntry)].map VocabEntry.practice_count).sum ∧
      r.avg = (r.total_practice : ℚ) / (r.total_words : ℚ) ∧
      r.most ∈ [(⟨['x'], [], 2⟩ : VocabEntry)] ∧
      (∀ w ∈ [(⟨['x'], [], 2⟩ : VocabEntry)],
        w.practice_count ≤ r.most.practice_count) ∧
      [(⟨['x'], [], 2⟩ : VocabEntry)].find?
          (fun w => decide (r.most.practice_count ≤ w.practice_count)) =
        some r.most ∧
      r.least ∈ [(⟨['x'], [], 2⟩ : VocabEntry)] ∧
      (∀ w ∈ [(⟨['x'], [], 2⟩ : VocabEntry)],
        r.least.practice_count ≤ w.practice_count) ∧
      [(⟨['x'], [], 2⟩ : VocabEntry)].find?
          (fun w => decide (w.practice_count ≤ r.least.practice_count)) =
        some r.least) ∧
    (∃ ri : StatsResult,
      stats [⟨['a'], [], 0⟩, ⟨['b'], [], 3⟩, ⟨['c'], [], 1⟩] = some ri ∧
      ri.total_words = 3 ∧ ri.total_practice = 4 ∧ ri.avg = 4 / 3 ∧
      ri.most = (⟨['b'], [], 3⟩ : VocabEntry) ∧
      ri.least = (⟨['a'], [], 0⟩ : VocabEntry)) :=
  stats_fields_spec ⟨['x'], [], 2⟩ [] ⟨['a'], [], 0⟩ ⟨['b'], [], 3⟩ ⟨['c'], [], 1⟩
    rfl rfl rfl

/-- The per-entry update of the practice loops
(`w['practice_count'] += 1`, line 236). -/
def incPractice (w : VocabEntry) : VocabEntry :=
  ⟨w.word, w.added_date, w.practice_count + 1⟩

/-- The store-affecting core of `practice_all` (lines 214-251): an empty
store only gets a notice (no save); otherwise the shuffled word names go to
`bulk_generate` in one call, every entry's practice_count is incremented and
the store is saved.  Returned: the generated blocks, the saved store, and
whether a save happened.  The shuffled order is a parameter (the code uses
`random.shuffle`). -/
def practice_allFx (words : List VocabEntry) (shuffled : List (List Char))
    (outcome : Except (List Char) (List Char)) :
    List (List Char) × List VocabEntry × Bool :=
  if words.isEmpty then ([], words, false)
  else (bulk_generate shuffled outcome, words.map incPractice, true)

/-- Claim C4: for a non-empty store, when the generation call raises,
practice_all still completes: it produces exactly one placeholder block per
entry (all identical), increments every entry's practice_count by exactly
one (incPractice), and saves the store. -/
theorem practice_all_degraded (words : List VocabEntry)
    (shuffled : List (List Char)) (err : List Char) (h1 : words ≠ [])
    (h2 : shuffled.Perm (words.map VocabEntry.word)) :
    practice_allFx words shuffled (Except.error err) =
      (List.replicate words.length (apiError err), words.map incPractice, true) ∧
    (practice_allFx words shuffled (Except.error err)).1.length = words.length := by
  have hne : words.isEmpty = false := by simpa [List.isEmpty_iff] using h1
  have hlen : shuffled.length = words.length := by
    rw [h2.length_eq, List.length_map]
  have hsne : shuffled.isEmpty = false := by
    have : words.length ≠ 0 := by
      simpa [List.length_eq_zero] using h1
    simp [List.isEmpty_iff, ← List.length_eq_zero, hlen, this]
  have e : practice_allFx words shuffled (Except.error err) =
      (List.replicate words.length (apiError err), words.map incPractice, true) := by
    unfold practice_allFx bulk_generate bulk_generateFx
    rw [hne, hsne, hlen]
    simp
  exact ⟨e, by rw [e]; simp⟩

/-- Witness for claim C4 at a concrete input. -/
theorem practice_all_degraded_witness :
    practice_allFx [⟨['a'], [], 0⟩] [['a']] (Except.error ['e']) =
      (List.replicate ([(⟨['a'], [], 0⟩ : VocabEntry)]).length (apiError ['e']),
        [(⟨['a'], [], 0⟩ : VocabEntry)].map incPractice, true) ∧
    (practice_allFx [⟨['a'], [], 0⟩] [['a']] (Except.error ['e'])).1.length =
      ([(⟨['a'], [], 0⟩ : VocabEntry)]).length :=
  practice_all_degraded [⟨['a'], [], 0⟩] [['a']] ['e'] (by decide)
    (List.Perm.refl _)

/-- The kinds of replies the add/remove handlers send. -/
inductive ReplyKind where
  | invalidWord
  | alreadyAdded
  | addedNotice
  | generatedExample
  | usage
  | removed
  | notFound
deriving DecidableEq

/-- Effects of one add_word invocation: the resulting store file, the
replies sent in order, whether the store was read (load_words) and whether
it was rewritten (save_words). -/
structure HandlerResult where
  store : List VocabEntry
  replies : List ReplyKind
  loaded : Bool
  saved : Bool
deriving DecidableEq

/-- `update.message.text.strip().lower()` (line 185). -/
def normWord (text : List Char) : List Char :=
  (pyStrip text).map pyToLower

/-- `word.startswith('/')` (line 187). -/
def startsWithSlash : List Char → Bool
  | '/' :: _ => true
  | _ => false

/-- The validation at line 190, as a pass test: at least 2 characters and
alphabetic once internal hyphens and spaces are removed. -/
def wordShapeOk (word : List Char) : Bool :=
  decide (2 ≤ word.length) &&
    pyIsAlphaStr (word.filter (fun c => !(c = '-' || c = ' ')))

/-- The add_word handler (lines 184-211).  Command-looking text is ignored
silently; invalid words get a rejection without touching the store; a word
already stored gets a duplicate notice (store loaded, not saved); otherwise
the entry is appended with practice_count 0, the store is saved, and an
added notice plus one generated example are replied. -/
def add_wordFx (store : List VocabEntry) (text now : List Char) :
    HandlerResult :=
  let word := normWord text
  if startsWithSlash word then ⟨store, [], false, false⟩
  else if !wordShapeOk word then ⟨store, [ReplyKind.invalidWord], false, false⟩
  else if store.any (fun w => w.word = word) then
    ⟨store, [ReplyKind.alreadyAdded], true, false⟩
  else
    ⟨store ++ [⟨word, now, 0⟩],
      [ReplyKind.addedNotice, ReplyKind.generatedExample], true, true⟩

/-- The remove_word handler (lines 269-282): with no argument, a usage reply
and no store access; otherwise the entries whose word equals the lowercased
joined argument are filtered out, and the store is rewritten only when that
removed something (returned flag), else a not-found notice. -/
def remove_wordFx (store : List VocabEntry) (args : List (List Char)) :
    List VocabEntry × List ReplyKind × Bool :=
  if args.isEmpty then (store, [ReplyKind.usage], false)
  else
    let target := (List.intercalate [' '] args).map pyToLower
    let new_words := store.filter (fun w => w.word ≠ target)
    if new_words.length < store.length then (new_words, [ReplyKind.removed], true)
    else (store, [ReplyKind.notFound], false)

theorem pyToLower_mem_or_self (c : Char) :
    pyToLower c ∈ ['a', 'b', 'c', 'd', 'e', 'f', 'g', 'h', 'i', 'j', 'k', 'l',
      'm', 'n', 'o', 'p', 'q', 'r', 's', 't', 'u', 'v', 'w', 'x', 'y', 'z'] ∨
    pyToLower c = c := by
  unfold pyToLower
  split
  all_goals first | (left; decide) | (right; rfl)

theorem pyToLower_fixes_lower (c : Char)
    (h : c ∈ ['a', 'b', 'c', 'd', 'e', 'f', 'g', 'h', 'i', 'j', 'k', 'l',
      'm', 'n', 'o', 'p', 'q', 'r', 's', 't', 'u', 'v', 'w', 'x', 'y', 'z']) :
    pyToLower c = c := by
  fin_cases h <;> rfl

theorem pyToLower_idem (c : Char) : pyToLower (pyToLower c) = pyToLower c := by
  rcases pyToLower_mem_or_self c with h | h
  · exact pyToLower_fixes_lower _ h
  · rw [h]
    exact h

theorem map_pyToLower_idem (s : List Char) :
    (s.map pyToLower).map pyToLower = s.map pyToLower := by
  induction s with
  | nil => rfl
  | cons c t ih => simp [pyToLower_idem, ih]

theorem dropWhile_append_singleton (p : Char → Bool) (c : Char)
    (hp : p c = false) (l : List Char) :
    (l ++ [c]).dropWhile p = l.dropWhile p ++ [c] := by
  induction l with
  | nil => simp [List.dropWhile, hp]
  | cons x t ih =>
    rw [List.cons_append, List.dropWhile_cons, List.dropWhile_cons]
    by_cases hx : p x = true
    · rw [if_pos hx, if_pos hx, ih]
    · rw [if_neg hx, if_neg hx, List.cons_append]

theorem pyStrip_cons_of_neg (c : Char) (s : List Char)
    (hc : pyIsSpace c = false) :
    pyStrip (c :: s) = c :: (s.reverse.dropWhile pyIsSpace).reverse := by
  unfold pyStrip
  rw [List.dropWhile_cons, if_neg (by simp [hc]), List.reverse_cons,
    dropWhile_append_singleton _ _ hc, List.reverse_append]
  rfl

theorem normWord_slash (r : List Char) :
    normWord ('/' :: r) = '/' :: (r.reverse.dropWhile pyIsSpace).reverse.map pyToLower := by
  unfold normWord
  rw [pyStrip_cons_of_neg '/' r (by decide)]
  rfl

/-- Claim C10: a message whose text begins with a slash makes add_word return
at once — no reply is sent and the word store is neither read nor written. -/
theorem add_word_slash_silent (store : List VocabEntry) (r now : List Char) :
    add_wordFx store ('/' :: r) now = ⟨store, [], false, false⟩ := by
  have h := normWord_slash r
  simp [add_wordFx, h, startsWithSlash]

/-- Claim C9 (amended): a message whose trimmed, lowercased text does not
begin with a slash and is shorter than 2 characters is rejected with a
validation reply, and the store is neither read nor written. -/
theorem add_word_minlength_reject (store : List VocabEntry) (text now : List Char)
    (h1 : startsWithSlash (normWord text) = false)
    (h2 : (normWord text).length < 2) :
    add_wordFx store text now = ⟨store, [ReplyKind.invalidWord], false, false⟩ := by
  have h3 : wordShapeOk (normWord text) = false := by
    unfold wordShapeOk
    have hlen : decide (2 ≤ (normWord text).length) = false := by
      simp
      omega
    rw [hlen, Bool.false_and]
  simp [add_wordFx, h1, h3]

/-- Claim C9, as stated, fails for the one-character message consisting of a
slash: its trimmed, lowercased text has length 1 < 2, yet the handler
returns silently at the slash check — no validation reply is sent. -/
theorem add_word_minlength_counterexample :
    (normWord ['/']).length < 2 ∧
    add_wordFx [] ['/'] [] = ⟨[], [], false, false⟩ := by
  constructor
  · decide
  · decide

/-- Witness for claim C9 at a concrete input. -/
theorem add_word_minlength_witness :
    startsWithSlash (normWord ['a']) = false ∧ (normWord ['a']).length < 2 ∧
    add_wordFx [] ['a'] [] = ⟨[], [ReplyKind.invalidWord], false, false⟩ :=
  ⟨by decide, by decide, add_word_minlength_reject [] ['a'] [] (by decide) (by decide)⟩

/-- When add_word saved the store, the word passed every check, was not yet
stored, and the saved store is the old one with the new entry appended. -/
theorem add_word_saved_char (store : List VocabEntry) (text now : List Char)
    (h : (add_wordFx store text now).saved = true) :
    startsWithSlash (normWord text) = false ∧
    wordShapeOk (normWord text) = true ∧
    store.any (fun w => w.word = normWord text) = false ∧
    (add_wordFx store text now).store =
      store ++ [⟨normWord text, now, 0⟩] := by
  by_cases c1 : startsWithSlash (normWord text) = true
  · have hx : (add_wordFx store text now).saved = false := by
      simp [add_wordFx, c1]
    rw [hx] at h
    cases h
  · by_cases c2 : wordShapeOk (normWord text) = true
    · by_cases c3 : store.any (fun w => w.word = normWord text) = true
      · have hx : (add_wordFx store text now).saved = false := by
          simp [add_wordFx, c1, c2, c3]
        rw [hx] at h
        cases h
      · refine ⟨by simpa using c1, c2, by simpa using c3, ?_⟩
        simp [add_wordFx, c1, c2, c3]
    · have hx : (add_wordFx store text now).saved = false := by
        simp [add_wordFx, c1, c2]
      rw [hx] at h
      cases h

/-- When add_word did not save, the store is returned unchanged. -/
theorem add_word_unsaved_store (store : List VocabEntry) (text now : List Char)
    (h : (add_wordFx store text now).saved ≠ true) :
    (add_wordFx store text now).store = store := by
  by_cases c1 : startsWithSlash (normWord text) = true
  · simp [add_wordFx, c1]
  · by_cases c2 : wordShapeOk (normWord text) = true
    · by_cases c3 : store.any (fun w => w.word = normWord text) = true
      · simp [add_wordFx, c1, c2, c3]
      · exfalso
        apply h
        simp [add_wordFx, c1, c2, c3]
    · simp [add_wordFx, c1, c2]

/-- Claim C7: a second add of the same normalized word leaves the store
unchanged and only produces a duplicate notice, so the store holds exactly
one entry for that word; and add preserves the invariant that stored words
are normalized and pairwise distinct, hence no two entries share the same
normalized word. -/
theorem add_word_idempotent_unique (store : List VocabEntry)
    (t t2 now now2 : List Char) :
    ((add_wordFx store t now).saved = true → normWord t2 = normWord t →
      add_wordFx (add_wordFx store t now).store t2 now2 =
        ⟨(add_wordFx store t now).store, [ReplyKind.alreadyAdded], true, false⟩ ∧
      ((add_wordFx store t now).store.filter
          (fun e => e.word = normWord t)).length = 1) ∧
    ((∀ e ∈ store, e.word.map pyToLower = e.word) →
      (store.map VocabEntry.word).Nodup →
      (∀ e ∈ (add_wordFx store t now).store, e.word.map pyToLower = e.word) ∧
      ((add_wordFx store t now).store.map
          (fun e => e.word.map pyToLower)).Nodup) := by
  constructor
  · intro hs hnorm
    obtain ⟨c1, c2, c3, hst⟩ := add_word_saved_char store t now hs
    constructor
    · have hslash2 : startsWithSlash (normWord t2) = false := by
        rw [hnorm]
        exact c1
      have hshape2 : wordShapeOk (normWord t2) = true := by rw [hnorm]; exact c2
      rw [hst]
      have hdup : ((store ++ [(⟨normWord t, now, 0⟩ : VocabEntry)]).any
          (fun w => w.word = normWord t2)) = true := by
        rw [hnorm]
        simp
      simp only [add_wordFx]
      rw [hslash2, hshape2, hdup]
      simp
    · rw [hst, List.filter_append]
      have hstore_f : store.filter (fun e => e.word = normWord t) = [] := by
        rw [List.filter_eq_nil_iff]
        intro e he
        have h3 := List.any_eq_false.mp c3 e he
        simpa using h3
      rw [hstore_f]
      simp
  · intro hfix hnodup
    have hmap : store.map (fun e => e.word.map pyToLower) =
        store.map VocabEntry.word := by
      apply List.map_congr_left
      intro e he
      exact hfix e he
    by_cases hs : (add_wordFx store t now).saved = true
    · obtain ⟨c1, c2, c3, hst⟩ := add_word_saved_char store t now hs
      rw [hst]
      have hwfix : (normWord t).map pyToLower = normWord t := by
        unfold normWord
        exact map_pyToLower_idem _
      constructor
      · intro e he
        rcases List.mem_append.mp he with h | h
        · exact hfix e h
        · rw [List.mem_singleton.mp h]
          exact hwfix
      · rw [List.map_append, hmap]
        have hnew : ([(⟨normWord t, now, 0⟩ : VocabEntry)]).map
            (fun e => e.word.map pyToLower) = [normWord t] := by
          simp [hwfix]
        rw [hnew, List.nodup_append]
        refine ⟨hnodup, List.nodup_singleton _, ?_⟩
        intro a ha hb
        rw [List.mem_singleton.mp hb] at ha
        obtain ⟨e, he, hew⟩ := List.mem_map.mp ha
        have h3 := List.any_eq_false.mp c3 e he
        simp at h3
        exact h3 (by rw [hew])
    · rw [add_word_unsaved_store store t now hs]
      rw [hmap] at *
      exact ⟨hfix, by rw [hmap]; exact hnodup⟩

/-- Witness for claim C7 at a concrete input. -/
theorem add_word_idempotent_witness :
    (add_wordFx (add_wordFx [] "hello".data []).store "Hello ".data [] =
        ⟨(add_wordFx [] "hello".data []).store, [ReplyKind.alreadyAdded],
          true, false⟩ ∧
      ((add_wordFx [] "hello".data []).store.filter
          (fun e => e.word = normWord "hello".data)).length = 1) ∧
    ((∀ e ∈ (add_wordFx [] "hello".data []).store,
        e.word.map pyToLower = e.word) ∧
      ((add_wordFx [] "hello".data []).store.map
          (fun e => e.word.map pyToLower)).Nodup) :=
  ⟨(add_word_idempotent_unique [] "hello".data "Hello ".data [] []).1
      (by decide) (by decide),
   (add_word_idempotent_unique [] "hello".data "Hello ".data [] []).2
      (by decide) (by decide)⟩

/-- Claim C8: removing a word not stored (after lowercasing) yields a
not-found notice and returns the store unchanged without rewriting it; and
in general the store is rewritten only when the removal filter actually
dropped at least one entry. -/
theorem remove_word_not_found_frame (store : List VocabEntry)
    (args : List (List Char)) (h1 : args ≠ [])
    (h2 : ∀ e ∈ store, e.word ≠ (List.intercalate [' '] args).map pyToLower) :
    remove_wordFx store args = (store, [ReplyKind.notFound], false) ∧
    ∀ (store2 : List VocabEntry) (args2 : List (List Char)),
      (remove_wordFx store2 args2).2.2 = true →
      (store2.filter (fun w =>
          w.word ≠ (List.intercalate [' '] args2).map pyToLower)).length <
        store2.length := by
  constructor
  · have hne : args.isEmpty = false := by simpa [List.isEmpty_iff] using h1
    have hfilter : store.filter (fun w =>
        w.word ≠ (List.intercalate [' '] args).map pyToLower) = store := by
      rw [List.filter_eq_self]
      intro e he
      simpa using h2 e he
    have hnlt : ¬ ((store.filter (fun w =>
        w.word ≠ (List.intercalate [' '] args).map pyToLower)).length <
          store.length) := by
      rw [hfilter]
      omega
    simp only [remove_wordFx]
    rw [hne, if_neg (by simp), if_neg hnlt]
  · intro store2 args2 hsave
    by_cases hne2 : args2.isEmpty = true
    · exfalso
      have hx : (remove_wordFx store2 args2).2.2 = false := by
        simp [remove_wordFx, hne2]
      rw [hx] at hsave
      cases hsave
    · by_cases hlt : (store2.filter (fun w =>
          w.word ≠ (List.intercalate [' '] args2).map pyToLower)).length <
            store2.length
      · exact hlt
      · exfalso
        have hx : (remove_wordFx store2 args2).2.2 = false := by
          simp only [remove_wordFx]
          rw [if_neg hne2, if_neg hlt]
        rw [hx] at hsave
        cases hsave

/-- Witness for claim C8 at a concrete input. -/
theorem remove_word_not_found_witness :
    remove_wordFx [⟨['a', 'b'], [], 0⟩] [['z']] =
      ([⟨['a', 'b'], [], 0⟩], [ReplyKind.notFound], false) ∧
    ∀ (store2 : List VocabEntry) (args2 : List (List Char)),
      (remove_wordFx store2 args2).2.2 = true →
      (store2.filter (fun w =>
          w.word ≠ (List.intercalate [' '] args2).map pyToLower)).length <
        store2.length :=
  remove_word_not_found_frame [⟨['a', 'b'], [], 0⟩] [['z']] (by decide) (by decide)
